import Mathlib

/-!
Verification of the land-valuation core (`calculate_land_price` in
`src/land_valuation_app.py`) against its natural-language specification.

The pro-forma arithmetic of the source is embedded as functions over a
linear ordered field `K` (instantiated at `ℚ` for executable claims and at
`ℝ` for the IRR claims, which concern roots of the net-present-value
function).  The scipy bounded minimizer is external library code; theorems
about the solver take its documented contract (a point inside the bounds,
near-optimal on success) as hypotheses, exactly as the specification's
"any bounded scalar minimizer satisfies the contract provided it
converges" proviso states.  `npf.irr` is modelled by the mathematical IRR:
a rate `r > -1` at which the NPV of the cash-flow list vanishes, with
`none` standing for numpy-financial's `nan` when no such rate exists.
-/

namespace LandValuation

/-- The fourteen parameters of `calculate_land_price`
(`src/land_valuation_app.py`, lines 8-23). -/
structure Inputs (K : Type) where
  rent : K
  vacancy : K
  opex_ratio : K
  hard_cost : K
  soft_cost_ratio : K
  cap_rate : K
  exit_cap_rate : K
  rent_growth : K
  hold_years : ℕ
  equity_ratio : K
  target_irr : K
  lot_size_sqft : K
  far : K
  apt_size : K

variable {K : Type} [LinearOrderedField K] [FloorRing K]

/-- Line 24: `buildable_sqft = lot_size_sqft * far`. -/
def buildable_sqft (i : Inputs K) : K := i.lot_size_sqft * i.far

/-- Line 25: `units = int(buildable_sqft // apt_size)` (floor division). -/
def units (i : Inputs K) : ℤ := ⌊buildable_sqft i / i.apt_size⌋

/-- Line 26: `gross_rent = rent * 12 * units`. -/
def gross_rent (i : Inputs K) : K := i.rent * 12 * (units i : K)

/-- Line 27: `egi = gross_rent * (1 - vacancy)`. -/
def egi (i : Inputs K) : K := gross_rent i * (1 - i.vacancy)

/-- Line 28: `opex = egi * opex_ratio`. -/
def opex (i : Inputs K) : K := egi i * i.opex_ratio

/-- Line 29: `noi = egi - opex`. -/
def noi (i : Inputs K) : K := egi i - opex i

/-- Line 30: `noi_exit = noi * ((1 + rent_growth) ** hold_years)`. -/
def noi_exit (i : Inputs K) : K := noi i * (1 + i.rent_growth) ^ i.hold_years

/-- Line 31: `exit_value = noi_exit / exit_cap_rate`. -/
def exit_value (i : Inputs K) : K := noi_exit i / i.exit_cap_rate

/-- Line 33: `hard = buildable_sqft * hard_cost`. -/
def hard (i : Inputs K) : K := buildable_sqft i * i.hard_cost

/-- Line 34: `soft = hard * soft_cost_ratio`. -/
def soft (i : Inputs K) : K := hard i * i.soft_cost_ratio

/-- Line 35: `total_cost = hard + soft`. -/
def total_cost (i : Inputs K) : K := hard i + soft i

/-- Python's `xs[-1] += v` on a non-empty list: add `v` to the last element.
On the empty list Python raises `IndexError`; it is never reached because
`hold_years ≥ 1` throughout (the slider on line 68 enforces 5-20). -/
def addToLast : List K → K → List K
  | [], _ => []
  | [x], v => [x + v]
  | x :: y :: xs, v => x :: addToLast (y :: xs) v

/-- Lines 40-41: the annual equity cash flows
`[noi * ((1 + rent_growth) ** t) * equity_ratio for t in range(hold_years)]`
with `cash_flows[-1] += exit_value`. -/
def year_cash_flows (i : Inputs K) : List K :=
  addToLast
    ((List.range i.hold_years).map fun t =>
      noi i * (1 + i.rent_growth) ^ t * i.equity_ratio)
    (exit_value i)

/-- Lines 38-39: `total = total_cost + land_cost; equity = total * equity_ratio`. -/
def equity (i : Inputs K) (land : K) : K := (total_cost i + land) * i.equity_ratio

/-- Line 42: the list `[-equity] + cash_flows` handed to `npf.irr`. -/
def irr_cash_flows (i : Inputs K) (land : K) : List K :=
  -equity i land :: year_cash_flows i

/-- Net present value of a cash-flow list at rate `r`:
`npv [c0, c1, ..., cn] r = Σ ct / (1+r)^t`, written recursively as
`c0 + npv [c1, ..., cn] r / (1+r)`. -/
def npv : List K → K → K
  | [], _ => 0
  | c :: cs, r => c + npv cs r / (1 + r)

/-- `r` is an internal rate of return of the cash-flow list: a rate above
`-1` at which the net present value vanishes.  This is the root `npf.irr`
searches for. -/
def IsIRR (cfs : List ℝ) (r : ℝ) : Prop := -1 < r ∧ npv cfs r = 0

open Classical in
/-- Model of `npf.irr`: some IRR of the list when one exists, `none`
(numpy-financial's `nan`) when none does. -/
noncomputable def npf_irr (cfs : List ℝ) : Option ℝ :=
  if h : ∃ r : ℝ, IsIRR cfs r then some h.choose else none

/-- Lines 37-43: the solver objective `irr_error(land_cost)`, returning
`abs(irr - target_irr)`; `none` models the `nan` produced when `npf.irr`
finds no rate. -/
noncomputable def irr_error (i : Inputs ℝ) (land : ℝ) : Option ℝ :=
  (npf_irr (irr_cash_flows i land)).map fun irr => |irr - i.target_irr|

/-- Line 46: `land_price = result.x if result.success else 0`, as a function
of the minimizer's returned point `x` and its success flag. -/
def land_price (x : K) (success : Bool) : K := if success then x else 0

/-- Lines 45-47: the value returned by `calculate_land_price`, as a function
of the inputs and the minimizer outcome `(x, success)`:
`(land_price, buildable_sqft, units, noi, exit_value)`. -/
def calculate_land_price (i : Inputs K) (x : K) (success : Bool) :
    K × K × ℤ × K × K :=
  (land_price x success, buildable_sqft i, units i, noi i, exit_value i)

/-- The pro-forma evaluation of lines 24-31 with Python's failure modes made
explicit: float division by zero raises `ZeroDivisionError` in Python, so the
evaluation fails (`none`) exactly when `apt_size = 0` (line 25) or
`exit_cap_rate = 0` (line 31); otherwise it returns
`(buildable_sqft, units, noi, exit_value)`. -/
def evaluate [DecidableEq K] (i : Inputs K) : Option (K × ℤ × K × K) :=
  if i.apt_size = 0 then none
  else if i.exit_cap_rate = 0 then none
  else some (buildable_sqft i, units i, noi i, exit_value i)

/-- The Baseline scenario constants of lines 54-60 of the source, with the
default target IRR, hold period and equity ratio of lines 67-69. -/
def baseline : Inputs ℚ where
  rent := 2800
  vacancy := 5/100
  opex_ratio := 35/100
  hard_cost := 300
  soft_cost_ratio := 25/100
  cap_rate := 5/100
  exit_cap_rate := 5/100
  rent_growth := 2/100
  hold_years := 10
  equity_ratio := 3/10
  target_irr := 18/100
  lot_size_sqft := 10000
  far := 3
  apt_size := 1000

/-! ### List facts about `addToLast` and the year cash flows -/

theorem addToLast_length (xs : List K) (v : K) :
    (addToLast xs v).length = xs.length := by
  induction xs with
  | nil => rfl
  | cons x xs ih =>
      cases xs with
      | nil => rfl
      | cons y ys => simpa [addToLast] using ih

theorem addToLast_getElem_of_lt (xs : List K) (v : K) (t : ℕ)
    (h : t + 1 < xs.length) : (addToLast xs v)[t]? = xs[t]? := by
  induction xs generalizing t with
  | nil => rfl
  | cons x xs ih =>
      cases xs with
      | nil => simp at h
      | cons y ys =>
          cases t with
          | zero => simp [addToLast]
          | succ t =>
              simp only [addToLast, List.getElem?_cons_succ]
              exact ih t (by simpa using h)

theorem addToLast_getElem_last (xs : List K) (v : K) (h : xs ≠ []) :
    (addToLast xs v)[xs.length - 1]? = some (xs.getLast h + v) := by
  induction xs with
  | nil => exact absurd rfl h
  | cons x xs ih =>
      cases xs with
      | nil => rfl
      | cons y ys =>
          have ih' := ih (by simp)
          simpa [addToLast, List.getLast_cons] using ih'

theorem addToLast_mem (xs : List K) (v x : K) (hx : x ∈ addToLast xs v) :
    x ∈ xs ∨ ∃ y ∈ xs, x = y + v := by
  induction xs with
  | nil => simp [addToLast] at hx
  | cons a xs ih =>
      cases xs with
      | nil =>
          simp only [addToLast, List.mem_singleton] at hx
          exact Or.inr ⟨a, by simp, hx⟩
      | cons y ys =>
          simp only [addToLast, List.mem_cons] at hx
          rcases hx with rfl | hx
          · exact Or.inl (by simp)
          · rcases ih hx with h | ⟨z, hz, rfl⟩
            · exact Or.inl (List.mem_cons_of_mem _ h)
            · exact Or.inr ⟨z, List.mem_cons_of_mem _ hz, rfl⟩

theorem year_cash_flows_length (i : Inputs K) :
    (year_cash_flows i).length = i.hold_years := by
  simp [year_cash_flows, addToLast_length]

theorem year_cash_flows_getElem (i : Inputs K) (t : ℕ)
    (h : t + 1 < i.hold_years) :
    (year_cash_flows i)[t]? =
      some (noi i * (1 + i.rent_growth) ^ t * i.equity_ratio) := by
  rw [year_cash_flows, addToLast_getElem_of_lt _ _ _ (by simpa using h)]
  rw [List.getElem?_map, List.getElem?_range (by omega)]
  rfl

theorem year_cash_flows_last (i : Inputs K) (h : 1 ≤ i.hold_years) :
    (year_cash_flows i)[i.hold_years - 1]? =
      some (noi i * (1 + i.rent_growth) ^ (i.hold_years - 1) * i.equity_ratio
        + exit_value i) := by
  have hne : ((List.range i.hold_years).map fun t =>
      noi i * (1 + i.rent_growth) ^ t * i.equity_ratio) ≠ [] := by
    simp [List.map_eq_nil_iff, List.range_eq_nil]; omega
  have hlen : ((List.range i.hold_years).map fun t =>
      noi i * (1 + i.rent_growth) ^ t * i.equity_ratio).length = i.hold_years := by
    simp
  have hmain := addToLast_getElem_last
    ((List.range i.hold_years).map fun t =>
      noi i * (1 + i.rent_growth) ^ t * i.equity_ratio) (exit_value i) hne
  rw [hlen] at hmain
  have hget : ((List.range i.hold_years).map fun t =>
      noi i * (1 + i.rent_growth) ^ t * i.equity_ratio).getLast hne =
      noi i * (1 + i.rent_growth) ^ (i.hold_years - 1) * i.equity_ratio := by
    rw [List.getLast_eq_getElem]
    simp
  rw [year_cash_flows, hmain, hget]

theorem year_cash_flows_nonneg (i : Inputs K)
    (hnoi : 0 ≤ noi i) (hg : 0 ≤ 1 + i.rent_growth)
    (heq : 0 ≤ i.equity_ratio) (hexit : 0 ≤ exit_value i) :
    ∀ x ∈ year_cash_flows i, 0 ≤ x := by
  intro x hx
  have hterm : ∀ y ∈ (List.range i.hold_years).map fun t =>
      noi i * (1 + i.rent_growth) ^ t * i.equity_ratio, 0 ≤ y := by
    intro y hy
    obtain ⟨t, _, rfl⟩ := List.mem_map.1 hy
    exact mul_nonneg (mul_nonneg hnoi (pow_nonneg hg t)) heq
  rcases addToLast_mem _ _ _ hx with h | ⟨y, hy, rfl⟩
  · exact hterm x h
  · exact add_nonneg (hterm y hy) hexit

/-! ### Claim C3: cash-flow construction -/

/-- Claim C3: the cash-flow list handed to `npf.irr` is the initial outflow
`-(total_construction_cost + land_cost) * equity_ratio` followed by
`hold_years` annual flows, whose year-`t` entry is
`noi * (1+growth)^t * equity_ratio` and whose final entry additionally
includes the whole `exit_value`, unscaled by the equity ratio. -/
theorem cash_flow_construction (i : Inputs ℚ) (land : ℚ)
    (h : 1 ≤ i.hold_years) :
    irr_cash_flows i land =
      (-((total_cost i + land) * i.equity_ratio)) :: year_cash_flows i ∧
    (year_cash_flows i).length = i.hold_years ∧
    (∀ t : ℕ, t + 1 < i.hold_years →
      (year_cash_flows i)[t]? =
        some (noi i * (1 + i.rent_growth) ^ t * i.equity_ratio)) ∧
    (year_cash_flows i)[i.hold_years - 1]? =
      some (noi i * (1 + i.rent_growth) ^ (i.hold_years - 1) * i.equity_ratio
        + exit_value i) := by
  exact ⟨rfl, year_cash_flows_length i,
    fun t ht => year_cash_flows_getElem i t ht, year_cash_flows_last i h⟩

/-- Witness for C3 at the Baseline inputs and land cost `1000`. -/
theorem cash_flow_construction_witness :
    1 ≤ baseline.hold_years ∧
      ((year_cash_flows baseline)[9]? =
        some (noi baseline * (1 + baseline.rent_growth) ^ 9
          * baseline.equity_ratio + exit_value baseline)) := by
  refine ⟨by norm_num [baseline], ?_⟩
  have h := (cash_flow_construction baseline 1000 (by norm_num [baseline])).2.2.2
  simpa [baseline] using h

/-! ### Claim C7: pro-forma formulas -/

/-- Claim C7: for every assumption set the evaluator computes
`buildable_area = lot_size_area * floor_area_ratio`,
`unit_count = floor(buildable_area / unit_size_area)`,
`hard_costs = buildable_area * hard_cost_per_area`,
`soft_costs = hard_costs * soft_cost_ratio`,
`total_construction_cost = hard_costs + soft_costs`,
`NOI = monthly_rent * 12 * unit_count * (1 - vacancy) * (1 - opex_ratio)` and
`exit_value = NOI * (1+growth)^hold / exit_cap`;  on the Baseline scenario it
yields `buildable_area = 30000`, `unit_count = 30`, `hard_costs = 9,000,000`,
`soft_costs = 2,250,000`, `total_construction_cost = 11,250,000` and
`NOI = 2800*12*30*0.95*0.65` exactly. -/
theorem proforma_formulas :
    (∀ i : Inputs ℚ,
      buildable_sqft i = i.lot_size_sqft * i.far ∧
      units i = ⌊buildable_sqft i / i.apt_size⌋ ∧
      hard i = buildable_sqft i * i.hard_cost ∧
      soft i = hard i * i.soft_cost_ratio ∧
      total_cost i = hard i + soft i ∧
      noi i = i.rent * 12 * (units i : ℚ) * (1 - i.vacancy) * (1 - i.opex_ratio) ∧
      exit_value i = noi i * (1 + i.rent_growth) ^ i.hold_years / i.exit_cap_rate) ∧
    buildable_sqft baseline = 30000 ∧
    units baseline = 30 ∧
    hard baseline = 9000000 ∧
    soft baseline = 2250000 ∧
    total_cost baseline = 11250000 ∧
    noi baseline = 2800 * 12 * 30 * (95/100) * (65/100) := by
  refine ⟨fun i => ⟨rfl, rfl, rfl, rfl, rfl, ?_, rfl⟩, ?_, ?_, ?_, ?_, ?_, ?_⟩
  · show egi i - opex i = _
    rw [opex, egi, gross_rent]; ring
  · norm_num [buildable_sqft, baseline]
  · norm_num [units, buildable_sqft, baseline]
  · norm_num [hard, buildable_sqft, baseline]
  · norm_num [soft, hard, buildable_sqft, baseline]
  · norm_num [total_cost, soft, hard, buildable_sqft, baseline]
  · norm_num [noi, egi, opex, gross_rent, units, buildable_sqft, baseline]

/-! ### Claim C10: noninterference -/

/-- Claim C10: the `buildable_sqft`, `units`, `noi` and `exit_value`
components of the result of `calculate_land_price` do not depend on
`target_irr` or `equity_ratio`: two calls that agree on every other input
return identical values for these four components. -/
theorem noninterference (i1 i2 : Inputs ℚ) (x1 x2 : ℚ) (s1 s2 : Bool)
    (hrent : i1.rent = i2.rent)
    (hvac : i1.vacancy = i2.vacancy)
    (hopex : i1.opex_ratio = i2.opex_ratio)
    (hhard : i1.hard_cost = i2.hard_cost)
    (hsoft : i1.soft_cost_ratio = i2.soft_cost_ratio)
    (hcap : i1.cap_rate = i2.cap_rate)
    (hexit : i1.exit_cap_rate = i2.exit_cap_rate)
    (hgrowth : i1.rent_growth = i2.rent_growth)
    (hhold : i1.hold_years = i2.hold_years)
    (hlot : i1.lot_size_sqft = i2.lot_size_sqft)
    (hfar : i1.far = i2.far)
    (hapt : i1.apt_size = i2.apt_size) :
    (calculate_land_price i1 x1 s1).2 = (calculate_land_price i2 x2 s2).2 := by
  simp only [calculate_land_price, buildable_sqft, units, gross_rent, egi, opex,
    noi, noi_exit, exit_value, hrent, hvac, hopex, hhard, hsoft, hcap, hexit,
    hgrowth, hhold, hlot, hfar, hapt]

/-- Witness for C10: the Baseline inputs with a different target IRR and a
different equity ratio give the same four reported pro-forma components. -/
theorem noninterference_witness :
    (calculate_land_price baseline 5 true).2 =
      (calculate_land_price
        { baseline with equity_ratio := 9/10, target_irr := 1/4 } 7 false).2 :=
  noninterference baseline
    { baseline with equity_ratio := 9/10, target_irr := 1/4 } 5 7 true false
    rfl rfl rfl rfl rfl rfl rfl rfl rfl rfl rfl rfl

/-! ### Claim C4: input validation -/

/-- An out-of-domain input: the Baseline scenario with
`lot_size_sqft = -10000`, violating the constraint `lot_size_area > 0`. -/
def bad_input : Inputs ℚ := { baseline with lot_size_sqft := -10000 }

/-- Counterexample for claim C4: on an input with `lot_size_area ≤ 0` the
evaluation does not fail — `calculate_land_price` contains no validation, so
the negative lot size flows silently through the formulas and yields a
negative unit count instead of an `InvalidAssumptions` error. -/
theorem no_validation_counterexample :
    evaluate bad_input = some (-30000, -30, noi bad_input, exit_value bad_input)
      ∧ units bad_input = -30 := by
  constructor
  · rw [evaluate]
    rw [if_neg (by norm_num [bad_input, baseline]),
      if_neg (by norm_num [bad_input, baseline])]
    have h1 : buildable_sqft bad_input = -30000 := by
      norm_num [buildable_sqft, bad_input, baseline]
    have h2 : units bad_input = -30 := by
      norm_num [units, buildable_sqft, bad_input, baseline]
    rw [h1, h2]
  · norm_num [units, buildable_sqft, bad_input, baseline]

/-- Amended claim C4: the code performs no domain validation at all; an
evaluation fails only at Python's `ZeroDivisionError` sites
(`unit_size_area = 0` in the floor division of line 25 or
`exit_cap_rate = 0` in the division of line 31), and for every other input —
including every input violating the spec's positivity constraints — it
succeeds and returns the pro-forma record. -/
theorem no_validation (i : Inputs ℚ) (hapt : i.apt_size ≠ 0)
    (hcap : i.exit_cap_rate ≠ 0) :
    evaluate i = some (buildable_sqft i, units i, noi i, exit_value i) := by
  rw [evaluate, if_neg hapt, if_neg hcap]

/-- Witness for the amended C4 at the out-of-domain input `bad_input`. -/
theorem no_validation_witness :
    evaluate { bad_input with far := -3 } =
      some (buildable_sqft { bad_input with far := -3 },
        units { bad_input with far := -3 },
        noi { bad_input with far := -3 },
        exit_value { bad_input with far := -3 }) :=
  no_validation { bad_input with far := -3 }
    (by norm_num [bad_input, baseline]) (by norm_num [bad_input, baseline])

/-! ### Claim C8: zero-unit edge case -/

/-- Claim C8: when `lot_size_area * floor_area_ratio < unit_size_area` the
evaluation succeeds with `unit_count = 0`, `NOI = 0` and `exit_value = 0` —
a valid, not erroneous, result. -/
theorem zero_unit_edge_case (i : Inputs ℚ)
    (hlot : 0 ≤ i.lot_size_sqft) (hfar : 0 ≤ i.far)
    (hapt : 0 < i.apt_size) (hcap : i.exit_cap_rate ≠ 0)
    (hsmall : i.lot_size_sqft * i.far < i.apt_size) :
    evaluate i = some (buildable_sqft i, 0, 0, 0) ∧
      units i = 0 ∧ noi i = 0 ∧ exit_value i = 0 := by
  have hunits : units i = 0 := by
    rw [units, Int.floor_eq_zero_iff]
    constructor
    · exact div_nonneg (mul_nonneg hlot hfar) hapt.le
    · rw [div_lt_one hapt]
      exact hsmall
  have hnoi : noi i = 0 := by
    rw [noi, opex, egi, gross_rent, hunits]
    push_cast
    ring
  have hexit : exit_value i = 0 := by
    rw [exit_value, noi_exit, hnoi, zero_mul, zero_div]
  refine ⟨?_, hunits, hnoi, hexit⟩
  rw [evaluate, if_neg hapt.ne', if_neg hcap, hunits, hnoi, hexit]

/-- Witness for C8: a 500-area lot at FAR 1 cannot fit a 1000-area unit. -/
theorem zero_unit_edge_case_witness :
    evaluate { baseline with lot_size_sqft := 500, far := 1 } =
      some (buildable_sqft { baseline with lot_size_sqft := 500, far := 1 },
        0, 0, 0) :=
  (zero_unit_edge_case { baseline with lot_size_sqft := 500, far := 1 }
    (by norm_num) (by norm_num) (by norm_num [baseline])
    (by norm_num [baseline]) (by norm_num [baseline])).1

/-! ### Claim C6: behaviour on minimizer failure -/

/-- Counterexample for claim C6: when the minimizer reports failure with best
estimate `1,000,000`, the code returns `0`, not the estimate — line 46 reads
`land_price = result.x if result.success else 0`, discarding `result.x`. -/
theorem discard_counterexample :
    land_price (1000000 : ℚ) false = 0 ∧ (1000000 : ℚ) ≠ 0 := by
  refine ⟨rfl, by norm_num⟩

/-- Amended claim C6: whenever the minimizer reports failure,
`calculate_land_price` returns land price `0`, discarding the minimizer's
estimate; the returned tuple carries no convergence flag at all. -/
theorem discard_on_failure (i : Inputs ℚ) (x : ℚ) :
    calculate_land_price i x false =
      (0, buildable_sqft i, units i, noi i, exit_value i) := rfl

/-! ### Claim C9: returned land price lies in the search bound -/

/-- Claim C9: the land price returned by `calculate_land_price` lies in
`[0, 50,000,000]`: it is either the bounded minimizer's point, which the
minimizer keeps inside the bounds of line 45, or the fallback `0`. -/
theorem land_price_in_bounds (i : Inputs ℚ) (x : ℚ) (success : Bool)
    (hx : x ∈ Set.Icc (0 : ℚ) 50000000) :
    (calculate_land_price i x success).1 ∈ Set.Icc (0 : ℚ) 50000000 := by
  cases success with
  | true => exact hx
  | false =>
      simp only [calculate_land_price, land_price, Bool.false_eq_true,
        if_false, Set.mem_Icc]
      norm_num

/-- Witness for C9 at the Baseline inputs with minimizer point `5`. -/
theorem land_price_in_bounds_witness :
    (5 : ℚ) ∈ Set.Icc (0 : ℚ) 50000000 ∧
      (calculate_land_price baseline 5 true).1 ∈ Set.Icc (0 : ℚ) 50000000 :=
  ⟨by norm_num, land_price_in_bounds baseline 5 true (by norm_num)⟩

/-! ### Sign and monotonicity facts about `npv` -/

theorem npv_nonneg (cfs : List K) (r : K) (h0 : ∀ x ∈ cfs, 0 ≤ x)
    (hr : -1 < r) : 0 ≤ npv cfs r := by
  induction cfs with
  | nil => simp [npv]
  | cons c cs ih =>
      have hr1 : (0 : K) < 1 + r := by linarith
      have hc : 0 ≤ c := h0 c (by simp)
      have hcs : 0 ≤ npv cs r :=
        ih fun x hx => h0 x (List.mem_cons_of_mem _ hx)
      have hdiv : 0 ≤ npv cs r / (1 + r) := div_nonneg hcs hr1.le
      simpa [npv] using add_nonneg hc hdiv

theorem npv_pos (cfs : List K) (r : K) (h0 : ∀ x ∈ cfs, 0 ≤ x)
    (hpos : ∃ x ∈ cfs, 0 < x) (hr : -1 < r) : 0 < npv cfs r := by
  induction cfs with
  | nil => obtain ⟨x, hx, _⟩ := hpos; simp at hx
  | cons c cs ih =>
      have hr1 : (0 : K) < 1 + r := by linarith
      have hc : 0 ≤ c := h0 c (by simp)
      have hcs0 : ∀ x ∈ cs, 0 ≤ x := fun x hx => h0 x (List.mem_cons_of_mem _ hx)
      obtain ⟨x, hx, hxpos⟩ := hpos
      rcases List.mem_cons.1 hx with rfl | hx'
      · have hdiv : 0 ≤ npv cs r / (1 + r) :=
          div_nonneg (npv_nonneg cs r hcs0 hr) hr1.le
        show 0 < x + npv cs r / (1 + r)
        linarith
      · have hcs : 0 < npv cs r := ih hcs0 ⟨x, hx', hxpos⟩
        have hdiv : 0 < npv cs r / (1 + r) := div_pos hcs hr1
        show 0 < c + npv cs r / (1 + r)
        linarith

/-- The discounted tail value `npv cfs r / (1 + r)` is antitone in the rate
whenever all flows are non-negative. -/
theorem npv_div_anti (cfs : List K) (r1 r2 : K) (h0 : ∀ x ∈ cfs, 0 ≤ x)
    (h1 : -1 < r1) (h12 : r1 ≤ r2) :
    npv cfs r2 / (1 + r2) ≤ npv cfs r1 / (1 + r1) := by
  induction cfs with
  | nil => simp [npv]
  | cons c cs ih =>
      have hr1 : (0 : K) < 1 + r1 := by linarith
      have hr2 : (0 : K) < 1 + r2 := by linarith
      have hc : 0 ≤ c := h0 c (by simp)
      have hcs0 : ∀ x ∈ cs, 0 ≤ x := fun x hx => h0 x (List.mem_cons_of_mem _ hx)
      have hA : npv cs r2 / (1 + r2) ≤ npv cs r1 / (1 + r1) := ih hcs0
      have hnum1 : 0 ≤ c + npv cs r1 / (1 + r1) :=
        add_nonneg hc (div_nonneg (npv_nonneg cs r1 hcs0 h1) hr1.le)
      show (c + npv cs r2 / (1 + r2)) / (1 + r2) ≤
        (c + npv cs r1 / (1 + r1)) / (1 + r1)
      exact div_le_div hnum1 (by linarith) hr1 (by linarith)

theorem npv_le_sum (cfs : List K) (r : K) (h0 : ∀ x ∈ cfs, 0 ≤ x)
    (hr : 0 ≤ r) : npv cfs r ≤ cfs.sum := by
  induction cfs with
  | nil => simp [npv]
  | cons c cs ih =>
      have hcs0 : ∀ x ∈ cs, 0 ≤ x := fun x hx => h0 x (List.mem_cons_of_mem _ hx)
      have hd : npv cs r / (1 + r) ≤ npv cs r :=
        div_le_self (npv_nonneg cs r hcs0 (by linarith)) (by linarith)
      have hs : npv cs r ≤ cs.sum := ih hcs0
      show c + npv cs r / (1 + r) ≤ c + cs.sum
      linarith

/-- Each single discounted flow is a lower bound on the NPV of a
non-negative flow list. -/
theorem npv_ge_getD (cfs : List K) (r : K) (t : ℕ) (h0 : ∀ x ∈ cfs, 0 ≤ x)
    (hr : -1 < r) (ht : t < cfs.length) :
    cfs.getD t 0 / (1 + r) ^ t ≤ npv cfs r := by
  induction cfs generalizing t with
  | nil => simp at ht
  | cons c cs ih =>
      have hr1 : (0 : K) < 1 + r := by linarith
      have hc : 0 ≤ c := h0 c (by simp)
      have hcs0 : ∀ x ∈ cs, 0 ≤ x := fun x hx => h0 x (List.mem_cons_of_mem _ hx)
      cases t with
      | zero =>
          have hdiv : 0 ≤ npv cs r / (1 + r) :=
            div_nonneg (npv_nonneg cs r hcs0 hr) hr1.le
          show (c :: cs).getD 0 0 / (1 + r) ^ 0 ≤ c + npv cs r / (1 + r)
          simp only [List.getD_cons_zero, pow_zero, div_one]
          linarith
      | succ t =>
          have ht' : t < cs.length := by simpa using ht
          have h1 : cs.getD t 0 / (1 + r) ^ t ≤ npv cs r := ih t hcs0 ht'
          have h2 : cs.getD t 0 / (1 + r) ^ (t + 1) ≤ npv cs r / (1 + r) := by
            rw [pow_succ, ← div_div]
            exact (div_le_div_right hr1).2 h1
          show (c :: cs).getD (t + 1) 0 / (1 + r) ^ (t + 1) ≤
            c + npv cs r / (1 + r)
          simp only [List.getD_cons_succ]
          linarith

theorem npv_continuousOn (cfs : List ℝ) :
    ContinuousOn (npv cfs) {r : ℝ | -1 < r} := by
  induction cfs with
  | nil =>
      have heq : npv ([] : List ℝ) = fun _ : ℝ => (0 : ℝ) := rfl
      rw [heq]
      exact continuousOn_const
  | cons c cs ih =>
      have heq : npv (c :: cs) = fun r : ℝ => c + npv cs r / (1 + r) := rfl
      rw [heq]
      apply ContinuousOn.add continuousOn_const
      apply ContinuousOn.div ih
      · exact (continuous_const.add continuous_id).continuousOn
      · intro r hr
        have : -1 < r := hr
        intro hzero
        linarith [hzero]

/-- When the initial outflow is strictly negative, the later flows are
non-negative and at least one of them is strictly positive, the NPV has a
root above `-1`: an IRR exists. -/
theorem exists_irr (E : ℝ) (tail : List ℝ) (hE : 0 < E)
    (h0 : ∀ x ∈ tail, 0 ≤ x) (t : ℕ) (ht : t < tail.length)
    (hL : 0 < tail.getD t 0) :
    ∃ r : ℝ, IsIRR (-E :: tail) r := by
  set L := tail.getD t 0 with hLdef
  have hLE : 0 < L / E := div_pos hL hE
  set a : ℝ := (1 / 2) * min 1 (L / E) with ha
  have ha0 : 0 < a := by
    have : (0 : ℝ) < min 1 (L / E) := lt_min one_pos hLE
    rw [ha]; linarith
  have ha1 : a ≤ 1 / 2 := by
    have h1 : min 1 (L / E) ≤ 1 := min_le_left _ _
    rw [ha]; linarith
  have haLE : a < L / E := by
    have h1 : min 1 (L / E) ≤ L / E := min_le_right _ _
    rw [ha]; linarith
  set rlo : ℝ := a - 1 with hrlo
  set S := tail.sum with hS
  have hS0 : 0 ≤ S := List.sum_nonneg h0
  set rhi : ℝ := S / E with hrhi
  have hrhi0 : 0 ≤ rhi := div_nonneg hS0 hE.le
  have hlo1 : -1 < rlo := by rw [hrlo]; linarith
  have hlohi : rlo ≤ rhi := by rw [hrlo]; linarith
  have h1a : (1 : ℝ) + rlo = a := by rw [hrlo]; ring
  have hflo : 0 < npv (-E :: tail) rlo := by
    have hnpvtail : L / a ^ t ≤ npv tail rlo := by
      have h := npv_ge_getD tail rlo t h0 hlo1 ht
      rwa [h1a] at h
    have hpow : a ^ (t + 1) ≤ a :=
      pow_le_of_le_one ha0.le (by linarith) (Nat.succ_ne_zero t)
    have hstep1 : L / a ≤ L / a ^ (t + 1) :=
      div_le_div_of_nonneg_left hL.le (pow_pos ha0 (t + 1)) hpow
    have hdiv : L / a ^ (t + 1) ≤ npv tail rlo / a := by
      rw [pow_succ, ← div_div]
      exact (div_le_div_right ha0).2 hnpvtail
    have hEa : E < L / a := by
      rw [lt_div_iff ha0]
      have := (lt_div_iff hE).1 haLE
      linarith
    have hchain : E < npv tail rlo / a := lt_of_lt_of_le hEa (hstep1.trans hdiv)
    have hrepr : npv (-E :: tail) rlo = -E + npv tail rlo / (1 + rlo) := rfl
    rw [hrepr, h1a]
    linarith
  have hfhi : npv (-E :: tail) rhi < 0 := by
    have h1r : (0 : ℝ) < 1 + rhi := by linarith
    have h1 : npv tail rhi ≤ S := npv_le_sum tail rhi h0 hrhi0
    have h2 : npv tail rhi / (1 + rhi) ≤ S / (1 + rhi) := (div_le_div_right h1r).2 h1
    have h3 : S / (1 + rhi) < E := by
      rw [div_lt_iff h1r]
      have hES : E * (1 + rhi) = E + S := by
        rw [hrhi]; field_simp
      rw [hES]; linarith
    have hrepr : npv (-E :: tail) rhi = -E + npv tail rhi / (1 + rhi) := rfl
    rw [hrepr]; linarith
  have hsub : Set.Icc rlo rhi ⊆ {r : ℝ | -1 < r} := fun r hr =>
    lt_of_lt_of_le hlo1 hr.1
  have hcont : ContinuousOn (npv (-E :: tail)) (Set.Icc rlo rhi) :=
    (npv_continuousOn _).mono hsub
  have hmem : (0 : ℝ) ∈ Set.Icc (npv (-E :: tail) rhi) (npv (-E :: tail) rlo) :=
    ⟨hfhi.le, hflo.le⟩
  obtain ⟨r, hrIcc, hr0⟩ := intermediate_value_Icc' hlohi hcont hmem
  exact ⟨r, lt_of_lt_of_le hlo1 hrIcc.1, hr0⟩

/-! ### Claim C2: IRR is strictly decreasing in land cost -/

/-- Claim C2: for a fixed assumption set with positive NOI, positive exit
value and positive equity ratio (and the non-negative rent growth enforced by
the slider of line 88), a higher land cost gives a strictly lower IRR: if
`r1` is an IRR at land cost `l1` and `r2` an IRR at the larger land cost
`l2`, then `r2 < r1`. -/
theorem irr_strictly_decreasing (i : Inputs ℝ) (l1 l2 r1 r2 : ℝ)
    (hnoi : 0 < noi i) (hexit : 0 < exit_value i) (heq : 0 < i.equity_ratio)
    (hg : 0 ≤ i.rent_growth) (hl : l1 < l2)
    (h1 : IsIRR (irr_cash_flows i l1) r1)
    (h2 : IsIRR (irr_cash_flows i l2) r2) :
    r2 < r1 := by
  obtain ⟨hr1, hnpv1⟩ := h1
  obtain ⟨hr2, hnpv2⟩ := h2
  have hg1 : (0 : ℝ) ≤ 1 + i.rent_growth := by linarith
  have htail : ∀ x ∈ year_cash_flows i, 0 ≤ x :=
    year_cash_flows_nonneg i hnoi.le hg1 heq.le hexit.le
  have hrepr1 : npv (irr_cash_flows i l1) r1 =
      -equity i l1 + npv (year_cash_flows i) r1 / (1 + r1) := rfl
  have hrepr2 : npv (irr_cash_flows i l2) r2 =
      -equity i l2 + npv (year_cash_flows i) r2 / (1 + r2) := rfl
  rw [hrepr1] at hnpv1
  rw [hrepr2] at hnpv2
  have hEE : equity i l1 < equity i l2 := by
    rw [equity, equity]
    exact mul_lt_mul_of_pos_right (by linarith) heq
  by_contra hcon
  push_neg at hcon
  have hanti := npv_div_anti (year_cash_flows i) r1 r2 htail hr1 hcon
  linarith

/-- A single concrete assumption set used by witnesses of the IRR claims:
one unit, year-one NOI `1`, exit value `1`, total construction cost `1`,
equity ratio `1`, hold period one year. -/
noncomputable def iW : Inputs ℝ where
  rent := 1/12
  vacancy := 0
  opex_ratio := 0
  hard_cost := 1
  soft_cost_ratio := 0
  cap_rate := 1
  exit_cap_rate := 1
  rent_growth := 0
  hold_years := 1
  equity_ratio := 1
  target_irr := 1
  lot_size_sqft := 1
  far := 1
  apt_size := 1

theorem iW_noi : noi iW = 1 := by
  norm_num [noi, egi, opex, gross_rent, units, buildable_sqft, iW]

theorem iW_exit : exit_value iW = 1 := by
  norm_num [exit_value, noi_exit, noi, egi, opex, gross_rent, units,
    buildable_sqft, iW]

theorem iW_total_cost : total_cost iW = 1 := by
  norm_num [total_cost, hard, soft, buildable_sqft, iW]

theorem iW_cash_flows (land : ℝ) :
    irr_cash_flows iW land = [-(1 + land), 2] := by
  rw [irr_cash_flows, year_cash_flows]
  have h1 : iW.hold_years = 1 := rfl
  rw [h1, show List.range 1 = [0] from rfl, List.map_singleton]
  rw [iW_noi, iW_exit]
  have h2 : iW.equity_ratio = 1 := rfl
  have h3 : iW.rent_growth = 0 := rfl
  rw [h2, h3, equity, iW_total_cost, h2]
  norm_num [addToLast]

/-- Witness for C2 at `iW`: the IRR at land cost `0` is `1`, the IRR at
land cost `1` is `0`, and indeed `0 < 1`. -/
theorem irr_strictly_decreasing_witness :
    IsIRR (irr_cash_flows iW 0) 1 ∧ IsIRR (irr_cash_flows iW 1) 0 ∧
      (0 : ℝ) < 1 := by
  have hA : IsIRR (irr_cash_flows iW 0) 1 := by
    refine ⟨by norm_num, ?_⟩
    rw [iW_cash_flows]
    norm_num [npv]
  have hB : IsIRR (irr_cash_flows iW 1) 0 := by
    refine ⟨by norm_num, ?_⟩
    rw [iW_cash_flows]
    norm_num [npv]
  exact ⟨hA, hB,
    irr_strictly_decreasing iW 0 1 1 0 (by rw [iW_noi]; norm_num)
      (by rw [iW_exit]; norm_num) (by norm_num [iW]) (by norm_num [iW])
      (by norm_num) hA hB⟩

/-! ### Claim C5: objective at land costs with no sign change -/

/-- The `iW` scenario with a zero equity ratio: every cash flow handed to
`npf.irr` is non-negative, so no sign change occurs and no IRR exists. -/
noncomputable def zero_equity : Inputs ℝ := { iW with equity_ratio := 0 }

/-- Counterexample for claim C5: at `zero_equity` (a set of assumptions and a
land cost inside the bound whose cash-flow sequence has no sign change) the
objective `irr_error` is `none` — `npf.irr` returns `nan` and line 43 turns
it into `abs(nan - target) = nan` — not a large finite penalty value. -/
theorem irr_penalty_counterexample : irr_error zero_equity 0 = none := by
  rw [irr_error, npf_irr, dif_neg]
  · rfl
  rintro ⟨r, hr, hnpv⟩
  have hlist : irr_cash_flows zero_equity 0 = [0, 1] := by
    rw [irr_cash_flows, year_cash_flows]
    have h1 : zero_equity.hold_years = 1 := rfl
    rw [h1, show List.range 1 = [0] from rfl, List.map_singleton]
    have hnoi : noi zero_equity = 1 := by
      norm_num [noi, egi, opex, gross_rent, units, buildable_sqft,
        zero_equity, iW]
    have hexit : exit_value zero_equity = 1 := by
      norm_num [exit_value, noi_exit, noi, egi, opex, gross_rent, units,
        buildable_sqft, zero_equity, iW]
    have h2 : zero_equity.equity_ratio = 0 := rfl
    have h3 : zero_equity.rent_growth = 0 := rfl
    rw [hnoi, hexit, h2, h3, equity, h2]
    norm_num [addToLast]
  rw [hlist] at hnpv
  have h1r : (0 : ℝ) < 1 + r := by linarith
  have hval : npv ([0, 1] : List ℝ) r = 1 / (1 + r) := by
    show (0 : ℝ) + ((1 : ℝ) + 0 / (1 + r)) / (1 + r) = 1 / (1 + r)
    rw [zero_div, add_zero, zero_add]
  rw [hval] at hnpv
  exact absurd hnpv (by positivity)

/-- Amended claim C5: at a land cost where the cash-flow sequence has no sign
change (here: zero equity ratio, so the initial outflow is zero while the
later flows are non-negative with a positive exit), `npf.irr` finds no rate
and the objective `irr_error` is `nan` (modelled `none`) — the failure is
propagated, the objective is not finite there. -/
theorem irr_error_undefined (i : Inputs ℝ) (land : ℝ)
    (heqz : i.equity_ratio = 0) (hnoi : 0 ≤ noi i) (hg : 0 ≤ i.rent_growth)
    (hexit : 0 < exit_value i) (hhold : 1 ≤ i.hold_years) :
    irr_error i land = none := by
  rw [irr_error, npf_irr, dif_neg]
  · rfl
  rintro ⟨r, hr, hnpv⟩
  have hE : equity i land = 0 := by rw [equity, heqz, mul_zero]
  have h1r : (0 : ℝ) < 1 + r := by linarith
  have hg1 : (0 : ℝ) ≤ 1 + i.rent_growth := by linarith
  have htail : ∀ x ∈ year_cash_flows i, 0 ≤ x :=
    year_cash_flows_nonneg i hnoi hg1 (by rw [heqz]) hexit.le
  have hposmem : ∃ x ∈ year_cash_flows i, 0 < x := by
    have hlast := year_cash_flows_last i hhold
    refine ⟨noi i * (1 + i.rent_growth) ^ (i.hold_years - 1) * i.equity_ratio
      + exit_value i, ?_, ?_⟩
    · exact List.getElem?_mem hlast
    · rw [heqz, mul_zero, zero_add]; exact hexit
  have hpos := npv_pos _ r htail hposmem hr
  have hrepr : npv (irr_cash_flows i land) r =
      -equity i land + npv (year_cash_flows i) r / (1 + r) := rfl
  rw [hrepr, hE, neg_zero, zero_add] at hnpv
  exact absurd hnpv (ne_of_gt (div_pos hpos h1r))

/-- Witness for the amended C5 at `zero_equity` and land cost `1`. -/
theorem irr_error_undefined_witness : irr_error zero_equity 1 = none :=
  irr_error_undefined zero_equity 1 rfl
    (by norm_num [noi, egi, opex, gross_rent, units, buildable_sqft,
      zero_equity, iW])
    (by norm_num [zero_equity, iW])
    (by norm_num [exit_value, noi_exit, noi, egi, opex, gross_rent, units,
      buildable_sqft, zero_equity, iW])
    (by norm_num [zero_equity, iW])

/-! ### Claim C1: solver correctness -/

/-- Claim C1: if the target IRR is achievable at some land cost inside the
default bound `[0, 50,000,000]` and the bounded minimizer converges — it
returns success together with a point `x` of the bound whose objective value
is within the tolerance of every other point's, the contract the spec demands
of any bounded scalar minimizer — then the solver returns exactly that `x`
as the land price, an IRR exists at `x`, and every IRR at `x` is within the
tolerance of the target. -/
theorem solver_correctness (i : Inputs ℝ) (landStar x tol : ℝ)
    (hnoi : 0 < noi i) (hexit : 0 < exit_value i) (heq : 0 < i.equity_ratio)
    (hg : 0 ≤ i.rent_growth) (hhold : 1 ≤ i.hold_years)
    (hT : 0 < total_cost i) (htol : 0 < tol)
    (hstar : landStar ∈ Set.Icc (0 : ℝ) 50000000)
    (hach : IsIRR (irr_cash_flows i landStar) i.target_irr)
    (hx : x ∈ Set.Icc (0 : ℝ) 50000000)
    (hconv : ∀ rx, IsIRR (irr_cash_flows i x) rx →
      ∀ y ∈ Set.Icc (0 : ℝ) 50000000, ∀ ry, IsIRR (irr_cash_flows i y) ry →
        |rx - i.target_irr| ≤ |ry - i.target_irr| + tol) :
    land_price x true = x ∧
    (∃ r, IsIRR (irr_cash_flows i x) r) ∧
    ∀ r, IsIRR (irr_cash_flows i x) r → |r - i.target_irr| ≤ tol := by
  have hg1 : (0 : ℝ) ≤ 1 + i.rent_growth := by linarith
  have htail : ∀ a ∈ year_cash_flows i, 0 ≤ a :=
    year_cash_flows_nonneg i hnoi.le hg1 heq.le hexit.le
  have hEx : 0 < equity i x := mul_pos (by linarith [hx.1]) heq
  have hlast := year_cash_flows_last i hhold
  have hlen := year_cash_flows_length i
  have htlt : i.hold_years - 1 < (year_cash_flows i).length := by
    rw [hlen]; omega
  have hgetD : (year_cash_flows i).getD (i.hold_years - 1) 0 =
      noi i * (1 + i.rent_growth) ^ (i.hold_years - 1) * i.equity_ratio
        + exit_value i := by
    rw [List.getD_eq_getElem?_getD, hlast]; rfl
  have hLpos : 0 < (year_cash_flows i).getD (i.hold_years - 1) 0 := by
    rw [hgetD]
    have hnn : 0 ≤ noi i * (1 + i.rent_growth) ^ (i.hold_years - 1)
        * i.equity_ratio :=
      mul_nonneg (mul_nonneg hnoi.le (pow_nonneg hg1 _)) heq.le
    linarith
  have hexists : ∃ r, IsIRR (irr_cash_flows i x) r :=
    exists_irr (equity i x) (year_cash_flows i) hEx htail
      (i.hold_years - 1) htlt hLpos
  refine ⟨rfl, hexists, fun r hr => ?_⟩
  have h := hconv r hr landStar hstar i.target_irr hach
  simpa using h

/-- Witness for C1 at `iW`: the target IRR `1` is achieved at land cost `0`,
the minimizer returns `x = 0` with success, and the achieved IRR is exactly
the target. -/
theorem solver_correctness_witness :
    IsIRR (irr_cash_flows iW 0) iW.target_irr ∧
    land_price (0 : ℝ) true = 0 ∧
    (∃ r, IsIRR (irr_cash_flows iW 0) r) ∧
    ∀ r, IsIRR (irr_cash_flows iW 0) r → |r - iW.target_irr| ≤ 1 / 1000000 := by
  have hroot : ∀ r : ℝ, IsIRR (irr_cash_flows iW 0) r → r = 1 := by
    rintro r ⟨hr, hnpv⟩
    rw [iW_cash_flows] at hnpv
    have h1r : (0 : ℝ) < 1 + r := by linarith
    have hval : npv ([-(1 + 0), 2] : List ℝ) r =
        -(1 + 0) + (2 + 0 / (1 + r)) / (1 + r) := rfl
    rw [hval] at hnpv
    rw [zero_div, add_zero] at hnpv
    have h2 : (2 : ℝ) / (1 + r) = 1 := by linarith
    have h3 : (2 : ℝ) = 1 + r := by
      field_simp at h2
      linarith
    linarith
  have hach : IsIRR (irr_cash_flows iW 0) iW.target_irr := by
    refine ⟨by norm_num [iW], ?_⟩
    rw [iW_cash_flows]
    show -(1 + 0) + ((2 : ℝ) + 0 / (1 + iW.target_irr)) / (1 + iW.target_irr) = 0
    norm_num [iW]
  have hmain := solver_correctness iW 0 0 (1 / 1000000)
    (by rw [iW_noi]; norm_num) (by rw [iW_exit]; norm_num)
    (by norm_num [iW]) (by norm_num [iW]) (by norm_num [iW])
    (by rw [iW_total_cost]; norm_num) (by norm_num)
    (by constructor <;> norm_num) hach (by constructor <;> norm_num)
    (by
      intro rx hrx y hy ry hry
      rw [hroot rx hrx]
      have : |(1 : ℝ) - iW.target_irr| = 0 := by norm_num [iW]
      rw [this]
      positivity)
  exact ⟨hach, hmain.1, hmain.2.1, hmain.2.2⟩

end LandValuation
